import Mathlib

/-!
Shallow embedding of the ReceiptMatch.AI reconciliation core:
`services/reconciliation.py` (class `AdvancedReconciliationEngine`) and
`services/intelligent_reconciliation.py` (class `IntelligentReconciliation`).

Python dict records become structures.  An `amount` field is `Option ℚ`:
`some q` models a value on which Python's `float()` succeeds and returns `q`
(a missing key, via `.get('amount', 0)`, is `some 0`); `none` models a value
on which `float()` raises, i.e. the exception path that
`_calculate_similarity` catches and resolves to `0.0`.

`fuzz.token_set_ratio` (third-party library `fuzzywuzzy`) is external to the
repository, so callers of the embedding pass it as an uninterpreted function
`tsr`; every theorem below holds for an arbitrary such function.

Descriptor strings are `List Char`; Python's `str.upper`, substring test
(`a in b`), and whitespace `str.split()` are modelled by `pyUpper`,
`occursIn` and `splitWs`.
-/

structure ReceiptTxn where
  transaction_id : String
  vendor_name : List Char
  amount : Option ℚ
  transaction_date : String
deriving Repr, DecidableEq

structure BankTxn where
  transaction_id : String
  description : List Char
  amount : Option ℚ
  transaction_date : String
deriving Repr, DecidableEq

instance : Inhabited BankTxn := ⟨⟨"", [], none, ""⟩⟩

instance : Inhabited ReceiptTxn := ⟨⟨"", [], none, ""⟩⟩

/-- Value of the match dict built at `reconciliation.py` lines 52-57 (also the
shape produced by `intelligent_reconciliation.py` lines 33-38). -/
structure MatchResult where
  receipt : ReceiptTxn
  bank_transaction : BankTxn
  confidence : ℚ
  match_type : String
deriving Repr, DecidableEq

/-- Value of the result dict of `reconcile_transactions`, lines 63-67. -/
structure ReconcileOutcome where
  «matches» : List MatchResult
  unmatched_ledger : List ReceiptTxn
  unmatched_bank : List BankTxn
deriving Repr, DecidableEq

/-- Engine constant `self.amount_tolerance_percent = 0.1` (line 18). -/
def amount_tolerance_percent : ℚ := 1/10

/-- Hard-coded `date_score = 0.8` of `_calculate_similarity` (line 111). -/
def date_score : ℚ := 8/10

/-- Python `str.upper()` on a character list. -/
def pyUpper (s : List Char) : List Char := s.map Char.toUpper

/-- Test whether `needle` is a prefix of `hay` (helper for `occursIn`). -/
def occursAt : List Char → List Char → Bool
  | [], _ => true
  | _ :: _, [] => false
  | a :: as, b :: bs => a == b && occursAt as bs

/-- Python's substring containment `needle in hay` on strings. -/
def occursIn (needle : List Char) : List Char → Bool
  | [] => occursAt needle []
  | c :: t => occursAt needle (c :: t) || occursIn needle t

/-- Helper for `splitWs`: `acc` holds the current word reversed. -/
def splitWsAux : List Char → List Char → List (List Char)
  | [], acc => if acc.isEmpty then [] else [acc.reverse]
  | c :: cs, acc =>
    if c.isWhitespace then
      if acc.isEmpty then splitWsAux cs [] else acc.reverse :: splitWsAux cs []
    else splitWsAux cs (c :: acc)

/-- Python's `str.split()` with no argument: split on whitespace runs,
dropping empty words (used at `reconciliation.py` line 105). -/
def splitWs (s : List Char) : List (List Char) := splitWsAux s []

/-- Lookup table `vendor_mappings` of `_calculate_similarity`, lines 94-102:
`USB -> AMAZON`, `FUEL -> SHELL`, `TAX -> WALMART`, identity elsewhere. -/
def vendor_mappings (v : List Char) : List Char :=
  if v = "USB".toList then "AMAZON".toList
  else if v = "FUEL".toList then "SHELL".toList
  else if v = "TAX".toList then "WALMART".toList
  else v

/-- Vendor-score computation of `_calculate_similarity`, lines 90-108:
uppercase both descriptors, remap known extraction noise, then score `0.9`
when the receipt vendor occurs in the bank description or any whitespace
token of it does, else `fuzz.token_set_ratio(...) / 100`. -/
def vendor_score (tsr : List Char → List Char → ℚ) (receipt : ReceiptTxn) (bank : BankTxn) : ℚ :=
  let receipt_vendor := vendor_mappings (pyUpper receipt.vendor_name)
  let bank_desc := pyUpper bank.description
  if occursIn receipt_vendor bank_desc || (splitWs receipt_vendor).any (fun word => occursIn word bank_desc)
  then 9/10
  else tsr receipt_vendor bank_desc / 100

/-- Embedding of `AdvancedReconciliationEngine._calculate_similarity`
(lines 87-133).  A `none` amount on either side is the caught-exception path
(lines 131-133), returning `0.0`; a zero receipt amount short-circuits to
`0.0` (lines 117-118); otherwise the weighted sum of lines 110-125. -/
def calculate_similarity (tsr : List Char → List Char → ℚ) (receipt : ReceiptTxn) (bank : BankTxn) : ℚ :=
  match receipt.amount, bank.amount with
  | some receipt_amount, some bank_amount =>
    if receipt_amount = 0 then 0
    else
      let bank_abs := |bank_amount|
      let amount_diff := |receipt_amount - bank_abs| / receipt_amount
      let amount_score := max 0 (1 - amount_diff)
      date_score * (2/10) + amount_score * (4/10) + vendor_score tsr receipt bank * (4/10)
  | _, _ => 0

/-- Embedding of `AdvancedReconciliationEngine._amounts_compatible`
(lines 135-146) on parsed numeric amounts. -/
def amounts_compatible (receipt_amount bank_amount : ℚ) : Bool :=
  if receipt_amount = 0 then false
  else
    let bank_abs := |bank_amount|
    let receipt_abs := |receipt_amount|
    let variance := max (receipt_abs * amount_tolerance_percent) 1
    decide (|receipt_abs - bank_abs| ≤ variance)

/-- Lift of `_amounts_compatible` to `Option` amounts as invoked at
`reconcile_transactions` line 45.  The `none` (unparsable) branch is
unreachable there: it is only evaluated after `confidence > 0.7`, and an
unparsable amount forces `calculate_similarity` to `0`. -/
def amountsCompatibleOpt : Option ℚ → Option ℚ → Bool
  | some receipt_amount, some bank_amount => amounts_compatible receipt_amount bank_amount
  | _, _ => false

/-- Loop state of `reconcile_transactions`: the `«matches»` list and the two
`used_*` id sets (lines 25-27).  The sets are kept as insertion-ordered
lists; only membership is consulted. -/
structure EngineState where
  «matches» : List MatchResult
  used_receipts : List String
  used_bank : List String
deriving Repr, DecidableEq

/-- Body of the inner `for bank_txn in bank_transactions` loop of
`reconcile_transactions` (lines 36-48), threading the
`(best_match, best_confidence)` accumulator. -/
def bestStep (tsr : List Char → List Char → ℚ) (used_bank : List String) (receipt : ReceiptTxn)
    (acc : Option BankTxn × ℚ) (bank_txn : BankTxn) : Option BankTxn × ℚ :=
  if bank_txn.transaction_id ∈ used_bank then acc
  else
    let confidence := calculate_similarity tsr receipt bank_txn
    if confidence > 7/10 ∧ amountsCompatibleOpt receipt.amount bank_txn.amount = true then
      if confidence > acc.2 then (some bank_txn, confidence) else acc
    else acc

/-- Inner loop of `reconcile_transactions` over all bank transactions,
starting from `best_match = None`, `best_confidence = 0.0` (lines 33-48). -/
def findBestMatch (tsr : List Char → List Char → ℚ) (used_bank : List String) (receipt : ReceiptTxn)
    (bank_transactions : List BankTxn) : Option BankTxn × ℚ :=
  bank_transactions.foldl (bestStep tsr used_bank receipt) (none, 0)

/-- Body of the outer `for receipt in ledger_transactions` loop
(lines 29-61): skip already-used receipt ids, otherwise find the best bank
candidate and, if any, append a `"semantic"` match and mark both ids used. -/
def reconcileStep (tsr : List Char → List Char → ℚ) (bank_transactions : List BankTxn)
    (st : EngineState) (receipt : ReceiptTxn) : EngineState :=
  if receipt.transaction_id ∈ st.used_receipts then st
  else
    match findBestMatch tsr st.used_bank receipt bank_transactions with
    | (some best_match, best_confidence) =>
      { «matches» := st.«matches» ++ [⟨receipt, best_match, best_confidence, "semantic"⟩],
        used_receipts := st.used_receipts ++ [receipt.transaction_id],
        used_bank := st.used_bank ++ [best_match.transaction_id] }
    | (none, _) => st

/-- Embedding of `AdvancedReconciliationEngine.reconcile_transactions`
(lines 21-67). -/
def reconcile_transactions (tsr : List Char → List Char → ℚ)
    (ledger_transactions : List ReceiptTxn) (bank_transactions : List BankTxn) : ReconcileOutcome :=
  let final := ledger_transactions.foldl (reconcileStep tsr bank_transactions) ⟨[], [], []⟩
  { «matches» := final.«matches»,
    unmatched_ledger := ledger_transactions.filter
      (fun r => decide (r.transaction_id ∉ final.used_receipts)),
    unmatched_bank := bank_transactions.filter
      (fun b => decide (b.transaction_id ∉ final.used_bank)) }

/-- Modelled from the spec (§4.4 step 1b): the retained candidates for one
receipt are exactly the still-unconsumed bank records passing the acceptance
gate `confidence > 0.7 AND amountsCompatible`.  Spec-side definition used to
state the refinement claim about the inner loop of `reconcile_transactions`. -/
def spec_candidates (tsr : List Char → List Char → ℚ) (used_bank : List String)
    (receipt : ReceiptTxn) (banks : List BankTxn) : List BankTxn :=
  banks.filter (fun b => decide (b.transaction_id ∉ used_bank) &&
    (decide (calculate_similarity tsr receipt b > 7/10) &&
      amountsCompatibleOpt receipt.amount b.amount))

/-- One step of the spec-side selection: keep the running best candidate,
replacing it only on a strict confidence improvement (so the earliest
maximum wins). -/
def specSelectStep (tsr : List Char → List Char → ℚ) (receipt : ReceiptTxn)
    (acc : Option (BankTxn × ℚ)) (b : BankTxn) : Option (BankTxn × ℚ) :=
  match acc with
  | none => some (b, calculate_similarity tsr receipt b)
  | some p =>
    if calculate_similarity tsr receipt b > p.2 then
      some (b, calculate_similarity tsr receipt b)
    else acc

/-- Modelled from the spec (§4.4 step 1c): select the maximum-confidence
candidate, ties broken by the earliest bank record in input order.  Spec-side
definition used to state the refinement claim about the inner loop of
`reconcile_transactions`. -/
def spec_select_best (tsr : List Char → List Char → ℚ) (receipt : ReceiptTxn)
    (cands : List BankTxn) : Option (BankTxn × ℚ) :=
  cands.foldl (specSelectStep tsr receipt) none

/-- Row `i` of the cosine-similarity matrix of
`intelligent_reconciliation.py` line 24, with `n` bank columns.  The matrix
entries themselves come from the external embedding provider plus
`sklearn.cosine_similarity`, so they are an uninterpreted parameter `sim`. -/
def simRow (sim : ℕ → ℕ → ℚ) (i n : ℕ) : List ℚ := (List.range n).map (sim i)

/-- Helper for `npArgmax`: `i` is the index of the next element, `best_idx`
and `best_val` the best seen so far. -/
def argmaxAux : List ℚ → ℕ → ℕ → ℚ → ℕ
  | [], _, best_idx, _ => best_idx
  | x :: xs, i, best_idx, best_val =>
    if x > best_val then argmaxAux xs (i+1) i x else argmaxAux xs (i+1) best_idx best_val

/-- Semantics of `np.argmax` on a similarity row (line 29): index of the
first occurrence of the maximum. -/
def npArgmax : List ℚ → ℕ
  | [] => 0
  | x :: xs => argmaxAux xs 1 0 x

/-- Body of the `for i, receipt in enumerate(receipts)` loop of
`IntelligentReconciliation.find_matches` (lines 27-38).  The guard
`i < len(similarity_matrix)` of line 28 always holds there, since the matrix
has one row per receipt. -/
def findMatchesLoop (sim : ℕ → ℕ → ℚ) (bank_transactions : List BankTxn) :
    List ReceiptTxn → ℕ → List MatchResult
  | [], _ => []
  | receipt :: rest, i =>
    let row := simRow sim i bank_transactions.length
    let best_match_idx := npArgmax row
    let confidence := row.getD best_match_idx 0
    (if confidence > 7/10 then
      [⟨receipt, bank_transactions.getD best_match_idx default, confidence, "semantic"⟩]
    else []) ++ findMatchesLoop sim bank_transactions rest (i+1)

/-- Embedding of `IntelligentReconciliation.find_matches` (lines 10-40). -/
def find_matches (sim : ℕ → ℕ → ℚ) (receipts : List ReceiptTxn)
    (bank_transactions : List BankTxn) : List MatchResult :=
  if receipts.isEmpty || bank_transactions.isEmpty then []
  else findMatchesLoop sim bank_transactions receipts 0

/-- Forget the `transaction_date` field of a receipt (for the
date-insensitivity hyperproperty). -/
def eraseReceiptDate (r : ReceiptTxn) : ReceiptTxn :=
  { r with transaction_date := "" }

/-- Forget the `transaction_date` field of a bank record. -/
def eraseBankDate (b : BankTxn) : BankTxn :=
  { b with transaction_date := "" }

/-- Forget the `transaction_date` fields inside a match. -/
def eraseMatchDates (m : MatchResult) : MatchResult :=
  { m with receipt := eraseReceiptDate m.receipt,
           bank_transaction := eraseBankDate m.bank_transaction }

/-- Forget every `transaction_date` field of a reconciliation outcome. -/
def eraseOutcomeDates (o : ReconcileOutcome) : ReconcileOutcome :=
  { «matches» := o.«matches».map eraseMatchDates,
    unmatched_ledger := o.unmatched_ledger.map eraseReceiptDate,
    unmatched_bank := o.unmatched_bank.map eraseBankDate }

/-- Forget every `transaction_date` field inside a loop state (the used-id
lists carry no dates). -/
def eraseStateDates (st : EngineState) : EngineState :=
  { «matches» := st.«matches».map eraseMatchDates,
    used_receipts := st.used_receipts,
    used_bank := st.used_bank }

/-- Token-set-ratio stand-in used by the concrete witness runs. -/
def demoTsr : List Char → List Char → ℚ := fun _ _ => 0

/-- Witness receipt: matches `demoB1`. -/
def demoR1 : ReceiptTxn := ⟨"r1", "WALMART".toList, some 50, "2025-01-10"⟩

/-- Witness receipt with a zero amount. -/
def demoR2 : ReceiptTxn := ⟨"r2", "WALMART".toList, some 0, "2025-01-10"⟩

/-- Witness receipt whose amount fails to parse. -/
def demoR3 : ReceiptTxn := ⟨"r3", "WALMART".toList, none, "2025-01-10"⟩

/-- Witness bank record: matched by `demoR1`. -/
def demoB1 : BankTxn := ⟨"b1", "WALMART STORE 1234".toList, some (-50), "2025-01-11"⟩

/-- Witness bank record whose amount fails to parse. -/
def demoB2 : BankTxn := ⟨"b2", "SHELL".toList, none, "2025-01-12"⟩

/-- Witness ledger input. -/
def demoLedger : List ReceiptTxn := [demoR1, demoR2, demoR3]

/-- Witness bank input. -/
def demoBanks : List BankTxn := [demoB1, demoB2]

/-- Invariant of the outer loop of `reconcile_transactions`: the used-id
sets are exactly the ids of the matched records, in order and without
duplicates; every matched bank record comes from the bank input; and every
emitted match passed the acceptance gate with its recorded confidence. -/
structure LoopInv (tsr : List Char → List Char → ℚ) (banks : List BankTxn) (st : EngineState) : Prop where
  usedR_eq : st.used_receipts = st.«matches».map (fun m => m.receipt.transaction_id)
  usedB_eq : st.used_bank = st.«matches».map (fun m => m.bank_transaction.transaction_id)
  usedR_nodup : st.used_receipts.Nodup
  usedB_nodup : st.used_bank.Nodup
  banks_mem : ∀ m ∈ st.«matches», m.bank_transaction ∈ banks
  gate : ∀ m ∈ st.«matches»,
    m.confidence = calculate_similarity tsr m.receipt m.bank_transaction ∧
      m.confidence > 7/10 ∧
      amountsCompatibleOpt m.receipt.amount m.bank_transaction.amount = true ∧
      m.match_type = "semantic"

/-! ## Helper lemmas about the string primitives -/

/-- Characterisation of the prefix test `occursAt`. -/
lemma occursAt_iff (a : List Char) : ∀ b : List Char, occursAt a b = true ↔ ∃ t, b = a ++ t := by
  induction a with
  | nil => intro b; simp [occursAt]
  | cons x xs ih =>
    intro b
    cases b with
    | nil => simp [occursAt]
    | cons y ys =>
      simp only [occursAt, Bool.and_eq_true, beq_iff_eq, ih ys, List.cons_append,
        List.cons.injEq]
      constructor
      · rintro ⟨hxy, t, ht⟩
        exact ⟨t, hxy.symm, ht⟩
      · rintro ⟨t, hxy, ht⟩
        exact ⟨hxy.symm, t, ht⟩

/-- Characterisation of the Python substring test `needle in hay`. -/
lemma occursIn_iff (a : List Char) : ∀ b : List Char,
    occursIn a b = true ↔ ∃ s t, b = s ++ a ++ t := by
  intro b
  induction b with
  | nil =>
    simp only [occursIn, occursAt_iff]
    constructor
    · rintro ⟨t, ht⟩
      exact ⟨[], t, by simpa using ht⟩
    · rintro ⟨s, t, hst⟩
      have h := hst.symm
      simp only [List.append_eq_nil] at h
      exact ⟨[], by simp [h.1.2]⟩
  | cons c cs ih =>
    simp only [occursIn, Bool.or_eq_true, occursAt_iff, ih]
    constructor
    · rintro (⟨t, ht⟩ | ⟨s, t, hst⟩)
      · exact ⟨[], t, by simpa using ht⟩
      · exact ⟨c :: s, t, by simp [hst]⟩
    · rintro ⟨s, t, hst⟩
      cases s with
      | nil => exact Or.inl ⟨t, by simpa using hst⟩
      | cons u us =>
        right
        have h2 : cs = us ++ a ++ t := by
          simp only [List.cons_append, List.cons.injEq] at hst
          exact hst.2
        exact ⟨us, t, h2⟩

/-! ## Claim theorems about the similarity primitives -/

/-- C5.  Amount compatibility: `_amounts_compatible` fails closed on a zero
receipt amount and otherwise accepts exactly when the absolute-magnitude
difference is within `max(|receiptAmount| * tolerancePercent, 1.0)`, with the
tolerance percentage fixed at `0.1`. -/
theorem claim_C5_amounts_compatible :
    amount_tolerance_percent = 1/10 ∧
    (∀ bank_amount : ℚ, amounts_compatible 0 bank_amount = false) ∧
    ∀ receipt_amount bank_amount : ℚ,
      amounts_compatible receipt_amount bank_amount = true ↔
        (receipt_amount ≠ 0 ∧
          abs (abs receipt_amount - abs bank_amount) ≤
            max (abs receipt_amount * amount_tolerance_percent) 1) := by
  refine ⟨rfl, fun bank_amount => by simp [amounts_compatible], fun ra ba => ?_⟩
  by_cases h : ra = 0 <;> simp [amounts_compatible, h]

/-- C6.  Composite score formula: whenever both amounts parse and the receipt
amount is nonzero, the similarity is the weighted sum
`0.2 * dateScore + 0.4 * amountScore + 0.4 * vendorScore` with
`amountScore = max 0 (1 - |receiptAmount - |bankAmount|| / receiptAmount)`,
and the three weights sum to one. -/
theorem claim_C6_composite_score_formula :
    (∀ (tsr : List Char → List Char → ℚ) (receipt : ReceiptTxn) (bank : BankTxn) (ra ba : ℚ),
      receipt.amount = some ra → ra ≠ 0 → bank.amount = some ba →
      calculate_similarity tsr receipt bank =
        (2/10) * date_score + (4/10) * max 0 (1 - abs (ra - abs ba) / ra) +
          (4/10) * vendor_score tsr receipt bank) ∧
    date_score = 8/10 ∧ ((2 : ℚ)/10) + 4/10 + 4/10 = 1 := by
  refine ⟨fun tsr receipt bank ra ba hra hne hba => ?_, rfl, by norm_num⟩
  simp only [calculate_similarity, hra, hba, if_neg hne]
  ring

/-- C6 witness: the formula instantiated on a concrete pair. -/
theorem claim_C6_composite_score_formula_witness :
    calculate_similarity (fun _ _ => 0)
        (⟨"r1", "WALMART".toList, some 50, "2025-01-10"⟩ : ReceiptTxn)
        (⟨"b1", "WALMART STORE".toList, some (-50), "2025-01-11"⟩ : BankTxn) =
      (2/10) * date_score + (4/10) * max 0 (1 - abs ((50 : ℚ) - abs (-50 : ℚ)) / 50) +
        (4/10) * vendor_score (fun _ _ => 0)
          (⟨"r1", "WALMART".toList, some 50, "2025-01-10"⟩ : ReceiptTxn)
          (⟨"b1", "WALMART STORE".toList, some (-50), "2025-01-11"⟩ : BankTxn) :=
  claim_C6_composite_score_formula.1 (fun _ _ => 0)
    (⟨"r1", "WALMART".toList, some 50, "2025-01-10"⟩ : ReceiptTxn)
    (⟨"b1", "WALMART STORE".toList, some (-50), "2025-01-11"⟩ : BankTxn)
    50 (-50) rfl (by norm_num) rfl

/-- C7.  Vendor score: with the uppercased, noise-remapped receipt descriptor
`rv` and uppercased bank descriptor `bd`, the vendor component is exactly
`0.9` when `rv` occurs as a substring of `bd` (characterised literally as
substring containment) or some whitespace token of `rv` occurs in `bd`, and
otherwise it is `tokenSetRatio rv bd / 100`. -/
theorem claim_C7_vendor_score :
    (∀ a b : List Char, occursIn a b = true ↔ ∃ s t, b = s ++ a ++ t) ∧
    (∀ (tsr : List Char → List Char → ℚ) (receipt : ReceiptTxn) (bank : BankTxn),
      ((occursIn (vendor_mappings (pyUpper receipt.vendor_name)) (pyUpper bank.description) = true ∨
        ∃ w ∈ splitWs (vendor_mappings (pyUpper receipt.vendor_name)),
          occursIn w (pyUpper bank.description) = true) →
        vendor_score tsr receipt bank = 9/10) ∧
      ((occursIn (vendor_mappings (pyUpper receipt.vendor_name)) (pyUpper bank.description) = false ∧
        ∀ w ∈ splitWs (vendor_mappings (pyUpper receipt.vendor_name)),
          occursIn w (pyUpper bank.description) = false) →
        vendor_score tsr receipt bank =
          tsr (vendor_mappings (pyUpper receipt.vendor_name)) (pyUpper bank.description) / 100)) := by
  refine ⟨occursIn_iff, fun tsr receipt bank => ⟨fun h => ?_, fun h => ?_⟩⟩
  · rcases h with h | ⟨w, hw, hocc⟩
    · simp [vendor_score, h]
    · have : (splitWs (vendor_mappings (pyUpper receipt.vendor_name))).any
          (fun word => occursIn word (pyUpper bank.description)) = true :=
        List.any_eq_true.mpr ⟨w, hw, hocc⟩
      simp [vendor_score, this]
  · rcases h with ⟨h1, h2⟩
    have hany : (splitWs (vendor_mappings (pyUpper receipt.vendor_name))).any
        (fun word => occursIn word (pyUpper bank.description)) = false := by
      rw [List.any_eq_false]
      intro w hw
      simp [h2 w hw]
    simp [vendor_score, h1, hany]

/-- C7 witness: both branches exercised on concrete descriptors. -/
theorem claim_C7_vendor_score_witness :
    vendor_score (fun _ _ => 42)
        (⟨"r1", "WALMART".toList, some 50, ""⟩ : ReceiptTxn)
        (⟨"b1", "WALMART STORE".toList, some (-50), ""⟩ : BankTxn) = 9/10 ∧
    vendor_score (fun _ _ => 42)
        (⟨"r2", "ZZZZ".toList, some 50, ""⟩ : ReceiptTxn)
        (⟨"b2", "ACME".toList, some (-50), ""⟩ : BankTxn) = 42 / 100 := by
  constructor
  · exact (claim_C7_vendor_score.2 (fun _ _ => 42)
      (⟨"r1", "WALMART".toList, some 50, ""⟩ : ReceiptTxn)
      (⟨"b1", "WALMART STORE".toList, some (-50), ""⟩ : BankTxn)).1 (Or.inl (by rfl))
  · exact (claim_C7_vendor_score.2 (fun _ _ => 42)
      (⟨"r2", "ZZZZ".toList, some 50, ""⟩ : ReceiptTxn)
      (⟨"b2", "ACME".toList, some (-50), ""⟩ : BankTxn)).2 ⟨by rfl, by decide⟩

/-! ## Loop lemmas for `reconcile_transactions` -/

/-- One inner-loop step either keeps the accumulator or switches to the
current bank record, which then is unconsumed and passes the gate. -/
lemma bestStep_cases (tsr : List Char → List Char → ℚ) (used_bank : List String)
    (receipt : ReceiptTxn) (acc : Option BankTxn × ℚ) (b : BankTxn) :
    bestStep tsr used_bank receipt acc b = acc ∨
      (b.transaction_id ∉ used_bank ∧
        bestStep tsr used_bank receipt acc b = (some b, calculate_similarity tsr receipt b) ∧
        calculate_similarity tsr receipt b > 7/10 ∧
        amountsCompatibleOpt receipt.amount b.amount = true) := by
  simp only [bestStep]
  split_ifs with h1 h2 h3
  · exact Or.inl rfl
  · exact Or.inr ⟨h1, rfl, h2.1, h2.2⟩
  · exact Or.inl rfl
  · exact Or.inl rfl

/-- The inner loop either returns its starting accumulator or an unconsumed,
gate-passing bank record of the list together with its similarity. -/
lemma bestFold_cases (tsr : List Char → List Char → ℚ) (used_bank : List String)
    (receipt : ReceiptTxn) :
    ∀ (l : List BankTxn) (acc : Option BankTxn × ℚ),
      l.foldl (bestStep tsr used_bank receipt) acc = acc ∨
        ∃ b ∈ l, b.transaction_id ∉ used_bank ∧
          l.foldl (bestStep tsr used_bank receipt) acc =
            (some b, calculate_similarity tsr receipt b) ∧
          calculate_similarity tsr receipt b > 7/10 ∧
          amountsCompatibleOpt receipt.amount b.amount = true := by
  intro l
  induction l with
  | nil => intro acc; exact Or.inl rfl
  | cons b t ih =>
    intro acc
    rw [List.foldl_cons]
    rcases ih (bestStep tsr used_bank receipt acc b) with h | ⟨b', hb', hmem, heq, hconf, hcompat⟩
    · rw [h]
      rcases bestStep_cases tsr used_bank receipt acc b with h2 | ⟨hm, he, hc, hcp⟩
      · exact Or.inl h2
      · exact Or.inr ⟨b, List.mem_cons_self b t, hm, he, hc, hcp⟩
    · exact Or.inr ⟨b', List.mem_cons_of_mem _ hb', hmem, heq, hconf, hcompat⟩

/-- Properties of a successful inner-loop result. -/
lemma findBestMatch_some (tsr : List Char → List Char → ℚ) (used_bank : List String)
    (receipt : ReceiptTxn) (bank_transactions : List BankTxn) (b : BankTxn) (c : ℚ)
    (h : findBestMatch tsr used_bank receipt bank_transactions = (some b, c)) :
    b ∈ bank_transactions ∧ b.transaction_id ∉ used_bank ∧
      c = calculate_similarity tsr receipt b ∧ c > 7/10 ∧
      amountsCompatibleOpt receipt.amount b.amount = true := by
  rw [findBestMatch] at h
  rcases bestFold_cases tsr used_bank receipt bank_transactions (none, 0) with
    h0 | ⟨b', hb', hm, he, hc, hcp⟩
  · rw [h0] at h
    simp at h
  · rw [he] at h
    simp only [Prod.mk.injEq, Option.some.injEq] at h
    obtain ⟨hb, hc2⟩ := h
    subst hb
    exact ⟨hb', hm, hc2.symm, hc2 ▸ hc, hcp⟩

/-- One outer-loop step either leaves the state unchanged or appends exactly
one gate-passing match and marks both ids used. -/
lemma reconcileStep_cases (tsr : List Char → List Char → ℚ) (banks : List BankTxn)
    (st : EngineState) (receipt : ReceiptTxn) :
    reconcileStep tsr banks st receipt = st ∨
      ∃ b, receipt.transaction_id ∉ st.used_receipts ∧ b ∈ banks ∧
        b.transaction_id ∉ st.used_bank ∧
        calculate_similarity tsr receipt b > 7/10 ∧
        amountsCompatibleOpt receipt.amount b.amount = true ∧
        reconcileStep tsr banks st receipt =
          ⟨st.«matches» ++ [⟨receipt, b, calculate_similarity tsr receipt b, "semantic"⟩],
            st.used_receipts ++ [receipt.transaction_id],
            st.used_bank ++ [b.transaction_id]⟩ := by
  by_cases hmem : receipt.transaction_id ∈ st.used_receipts
  · left
    simp [reconcileStep, hmem]
  · cases hfb : findBestMatch tsr st.used_bank receipt banks with
    | mk ob c =>
      cases ob with
      | none =>
        left
        simp [reconcileStep, hmem, hfb]
      | some b =>
        obtain ⟨hb, hnb, hc, hgt, hcp⟩ := findBestMatch_some tsr _ receipt banks b c hfb
        right
        refine ⟨b, hmem, hb, hnb, hc ▸ hgt, hcp, ?_⟩
        simp [reconcileStep, hmem, hfb, hc]

/-- The invariant holds for the initial empty state. -/
lemma inv_init (tsr : List Char → List Char → ℚ) (banks : List BankTxn) :
    LoopInv tsr banks ⟨[], [], []⟩ := by
  refine ⟨rfl, rfl, List.nodup_nil, List.nodup_nil, ?_, ?_⟩ <;> simp

/-- The invariant is preserved by one outer-loop step. -/
lemma inv_step (tsr : List Char → List Char → ℚ) (banks : List BankTxn)
    (st : EngineState) (receipt : ReceiptTxn) (h : LoopInv tsr banks st) :
    LoopInv tsr banks (reconcileStep tsr banks st receipt) := by
  rcases reconcileStep_cases tsr banks st receipt with he | ⟨b, hr, hb, hnb, hgt, hcp, he⟩
  · rw [he]; exact h
  · rw [he]
    refine ⟨?_, ?_, ?_, ?_, ?_, ?_⟩
    · simp [h.usedR_eq]
    · simp [h.usedB_eq]
    · simp [List.nodup_append, h.usedR_nodup, hr]
    · simp [List.nodup_append, h.usedB_nodup, hnb]
    · intro m hm
      rcases List.mem_append.mp hm with hm | hm
      · exact h.banks_mem m hm
      · rw [List.mem_singleton.mp hm]
        exact hb
    · intro m hm
      rcases List.mem_append.mp hm with hm | hm
      · exact h.gate m hm
      · rw [List.mem_singleton.mp hm]
        exact ⟨rfl, hgt, hcp, rfl⟩

/-- The invariant is preserved by the whole outer loop. -/
lemma inv_fold (tsr : List Char → List Char → ℚ) (banks : List BankTxn) :
    ∀ (ledger : List ReceiptTxn) (st : EngineState), LoopInv tsr banks st →
      LoopInv tsr banks (ledger.foldl (reconcileStep tsr banks) st) := by
  intro ledger
  induction ledger with
  | nil => intro st h; exact h
  | cons r t ih =>
    intro st h
    rw [List.foldl_cons]
    exact ih _ (inv_step tsr banks st r h)

/-- Every match present after the loop was present initially or pairs a
receipt drawn from the processed ledger list. -/
lemma fold_matches_mem (tsr : List Char → List Char → ℚ) (banks : List BankTxn) :
    ∀ (ledger : List ReceiptTxn) (st : EngineState) (m : MatchResult),
      m ∈ (ledger.foldl (reconcileStep tsr banks) st).«matches» →
        m ∈ st.«matches» ∨ m.receipt ∈ ledger := by
  intro ledger
  induction ledger with
  | nil => intro st m hm; exact Or.inl hm
  | cons r t ih =>
    intro st m hm
    rw [List.foldl_cons] at hm
    rcases ih (reconcileStep tsr banks st r) m hm with h | h
    · rcases reconcileStep_cases tsr banks st r with he | ⟨b, _, _, _, _, _, he⟩
      · rw [he] at h
        exact Or.inl h
      · rw [he] at h
        simp only [List.mem_append, List.mem_singleton] at h
        rcases h with h | h
        · exact Or.inl h
        · subst h
          exact Or.inr (by simp)
    · exact Or.inr (List.mem_cons_of_mem _ h)

/-- Match-list projection of `reconcile_transactions`. -/
lemma reconcile_matches_def (tsr : List Char → List Char → ℚ)
    (ledger : List ReceiptTxn) (banks : List BankTxn) :
    (reconcile_transactions tsr ledger banks).«matches» =
      (ledger.foldl (reconcileStep tsr banks) ⟨[], [], []⟩).«matches» := rfl

/-- Unmatched-receipt projection of `reconcile_transactions`. -/
lemma reconcile_unmatchedL_def (tsr : List Char → List Char → ℚ)
    (ledger : List ReceiptTxn) (banks : List BankTxn) :
    (reconcile_transactions tsr ledger banks).unmatched_ledger =
      ledger.filter (fun r => decide
        (r.transaction_id ∉ (ledger.foldl (reconcileStep tsr banks) ⟨[], [], []⟩).used_receipts)) := rfl

/-- Unmatched-bank projection of `reconcile_transactions`. -/
lemma reconcile_unmatchedB_def (tsr : List Char → List Char → ℚ)
    (ledger : List ReceiptTxn) (banks : List BankTxn) :
    (reconcile_transactions tsr ledger banks).unmatched_bank =
      banks.filter (fun b => decide
        (b.transaction_id ∉ (ledger.foldl (reconcileStep tsr banks) ⟨[], [], []⟩).used_bank)) := rfl

/-- Counting a duplicate-free sublist inside a duplicate-free list by
filtering for membership. -/
lemma length_filter_mem_eq (A u : List String) (hA : A.Nodup) (hu : u.Nodup)
    (hsub : ∀ x ∈ u, x ∈ A) :
    (A.filter (fun x => decide (x ∈ u))).length = u.length := by
  have hperm : (A.filter (fun x => decide (x ∈ u))).Perm u := by
    rw [List.perm_ext_iff_of_nodup (hA.filter _) hu]
    intro a
    simp only [List.mem_filter, decide_eq_true_eq]
    exact ⟨fun h => h.2, fun h => ⟨hsub a h, h⟩⟩
  exact hperm.length_eq

/-- A receipt whose similarity against every bank record stays at or below
the acceptance threshold is never matched and lands in `unmatched_ledger`,
provided receipt ids are unique. -/
lemma low_conf_unmatched (tsr : List Char → List Char → ℚ)
    (ledger : List ReceiptTxn) (banks : List BankTxn) (r : ReceiptTxn)
    (hnd : (ledger.map (fun x => x.transaction_id)).Nodup) (hr : r ∈ ledger)
    (hlow : ∀ b : BankTxn, ¬ calculate_similarity tsr r b > 7/10) :
    r ∈ (reconcile_transactions tsr ledger banks).unmatched_ledger ∧
      ∀ m ∈ (reconcile_transactions tsr ledger banks).«matches», m.receipt ≠ r := by
  have hinv := inv_fold tsr banks ledger ⟨[], [], []⟩ (inv_init tsr banks)
  have hnomatch : ∀ m ∈ (ledger.foldl (reconcileStep tsr banks) ⟨[], [], []⟩).«matches»,
      m.receipt ≠ r := by
    intro m hm heq
    obtain ⟨hconf_eq, hgt, _, _⟩ := hinv.gate m hm
    rw [hconf_eq, heq] at hgt
    exact hlow m.bank_transaction hgt
  have hid : r.transaction_id ∉
      (ledger.foldl (reconcileStep tsr banks) ⟨[], [], []⟩).used_receipts := by
    rw [hinv.usedR_eq]
    intro hmem
    obtain ⟨m, hmM, hmid⟩ := List.mem_map.mp hmem
    have hmem_l : m.receipt ∈ ledger := by
      rcases fold_matches_mem tsr banks ledger ⟨[], [], []⟩ m hmM with h | h
      · simp at h
      · exact h
    exact hnomatch m hmM (List.inj_on_of_nodup_map hnd hmem_l hr hmid)
  refine ⟨?_, ?_⟩
  · rw [reconcile_unmatchedL_def]
    simp only [List.mem_filter, decide_eq_true_eq]
    exact ⟨hr, hid⟩
  · rw [reconcile_matches_def]
    exact hnomatch

/-- A bank record incompatible with every receipt amount is never matched
and lands in `unmatched_bank`, provided bank ids are unique. -/
lemma incompatible_bank_unmatched (tsr : List Char → List Char → ℚ)
    (ledger : List ReceiptTxn) (banks : List BankTxn) (b : BankTxn)
    (hnd : (banks.map (fun x => x.transaction_id)).Nodup) (hb : b ∈ banks)
    (hbad : ∀ x : Option ℚ, amountsCompatibleOpt x b.amount = false) :
    b ∈ (reconcile_transactions tsr ledger banks).unmatched_bank ∧
      ∀ m ∈ (reconcile_transactions tsr ledger banks).«matches», m.bank_transaction ≠ b := by
  have hinv := inv_fold tsr banks ledger ⟨[], [], []⟩ (inv_init tsr banks)
  have hnomatch : ∀ m ∈ (ledger.foldl (reconcileStep tsr banks) ⟨[], [], []⟩).«matches»,
      m.bank_transaction ≠ b := by
    intro m hm heq
    obtain ⟨_, _, hcp, _⟩ := hinv.gate m hm
    rw [heq, hbad m.receipt.amount] at hcp
    exact Bool.false_ne_true hcp
  have hid : b.transaction_id ∉
      (ledger.foldl (reconcileStep tsr banks) ⟨[], [], []⟩).used_bank := by
    rw [hinv.usedB_eq]
    intro hmem
    obtain ⟨m, hmM, hmid⟩ := List.mem_map.mp hmem
    have hmem_b : m.bank_transaction ∈ banks := hinv.banks_mem m hmM
    exact hnomatch m hmM (List.inj_on_of_nodup_map hnd hmem_b hb hmid)
  refine ⟨?_, ?_⟩
  · rw [reconcile_unmatchedB_def]
    simp only [List.mem_filter, decide_eq_true_eq]
    exact ⟨hb, hid⟩
  · rw [reconcile_matches_def]
    exact hnomatch

/-- Fully evaluated witness run: `demoR1` pairs with `demoB1` at confidence
`0.92`; the zero-amount and unparsable records end up unmatched. -/
lemma demo_eval :
    reconcile_transactions demoTsr demoLedger demoBanks =
      ⟨[⟨demoR1, demoB1, 92/100, "semantic"⟩], [demoR2, demoR3], [demoB2]⟩ := by
  have hv : vendor_score demoTsr demoR1 demoB1 = 9/10 := by rfl
  have hc11 : calculate_similarity demoTsr demoR1 demoB1 = 92/100 := by
    norm_num [calculate_similarity, show demoR1.amount = some 50 from rfl,
      show demoB1.amount = some (-50) from rfl, hv, date_score]
  have hc12 : calculate_similarity demoTsr demoR1 demoB2 = 0 := by
    simp [calculate_similarity, show demoR1.amount = some 50 from rfl,
      show demoB2.amount = none from rfl]
  have hc21 : calculate_similarity demoTsr demoR2 demoB1 = 0 := by
    simp [calculate_similarity, show demoR2.amount = some 0 from rfl,
      show demoB1.amount = some (-50) from rfl]
  have hc22 : calculate_similarity demoTsr demoR2 demoB2 = 0 := by
    simp [calculate_similarity, show demoR2.amount = some 0 from rfl,
      show demoB2.amount = none from rfl]
  have hc31 : calculate_similarity demoTsr demoR3 demoB1 = 0 := by
    simp [calculate_similarity, show demoR3.amount = none from rfl]
  have hc32 : calculate_similarity demoTsr demoR3 demoB2 = 0 := by
    simp [calculate_similarity, show demoR3.amount = none from rfl]
  have ha11 : amountsCompatibleOpt demoR1.amount demoB1.amount = true := by
    norm_num [amountsCompatibleOpt, show demoR1.amount = some 50 from rfl,
      show demoB1.amount = some (-50) from rfl, amounts_compatible, amount_tolerance_percent]
  norm_num [reconcile_transactions, reconcileStep, findBestMatch, bestStep,
    hc11, hc12, hc21, hc22, hc31, hc32, ha11,
    show demoLedger = [demoR1, demoR2, demoR3] from rfl,
    show demoBanks = [demoB1, demoB2] from rfl,
    show demoR1.transaction_id = "r1" from rfl,
    show demoR2.transaction_id = "r2" from rfl,
    show demoR3.transaction_id = "r3" from rfl,
    show demoB1.transaction_id = "b1" from rfl,
    show demoB2.transaction_id = "b2" from rfl,
    show amountsCompatibleOpt demoR2.amount demoB1.amount = false from rfl,
    show amountsCompatibleOpt demoR2.amount demoB2.amount = false from rfl,
    show amountsCompatibleOpt demoR3.amount demoB1.amount = false from rfl,
    show amountsCompatibleOpt demoR3.amount demoB2.amount = false from rfl]
  decide

/-! ## Claim theorems about the reconciliation loop -/

/-- C1.  No double-assignment: in every run, the receipt ids of the emitted
matches are pairwise distinct, the bank ids are pairwise distinct, and a
matched record's id never also occurs in the corresponding unmatched list. -/
theorem claim_C1_no_double_assignment (tsr : List Char → List Char → ℚ)
    (ledger : List ReceiptTxn) (banks : List BankTxn) :
    ((reconcile_transactions tsr ledger banks).«matches».map
        (fun m => m.receipt.transaction_id)).Nodup ∧
    ((reconcile_transactions tsr ledger banks).«matches».map
        (fun m => m.bank_transaction.transaction_id)).Nodup ∧
    ∀ m ∈ (reconcile_transactions tsr ledger banks).«matches»,
      (∀ r ∈ (reconcile_transactions tsr ledger banks).unmatched_ledger,
        r.transaction_id ≠ m.receipt.transaction_id) ∧
      (∀ b ∈ (reconcile_transactions tsr ledger banks).unmatched_bank,
        b.transaction_id ≠ m.bank_transaction.transaction_id) := by
  have hinv := inv_fold tsr banks ledger ⟨[], [], []⟩ (inv_init tsr banks)
  refine ⟨?_, ?_, ?_⟩
  · rw [reconcile_matches_def, ← hinv.usedR_eq]
    exact hinv.usedR_nodup
  · rw [reconcile_matches_def, ← hinv.usedB_eq]
    exact hinv.usedB_nodup
  · intro m hm
    rw [reconcile_matches_def] at hm
    have hrid : m.receipt.transaction_id ∈
        (ledger.foldl (reconcileStep tsr banks) ⟨[], [], []⟩).used_receipts := by
      rw [hinv.usedR_eq]
      exact List.mem_map_of_mem _ hm
    have hbid : m.bank_transaction.transaction_id ∈
        (ledger.foldl (reconcileStep tsr banks) ⟨[], [], []⟩).used_bank := by
      rw [hinv.usedB_eq]
      exact List.mem_map_of_mem _ hm
    constructor
    · intro r hr heq
      rw [reconcile_unmatchedL_def] at hr
      simp only [List.mem_filter, decide_eq_true_eq] at hr
      exact hr.2 (heq ▸ hrid)
    · intro b hb heq
      rw [reconcile_unmatchedB_def] at hb
      simp only [List.mem_filter, decide_eq_true_eq] at hb
      exact hb.2 (heq ▸ hbid)

/-- C1 witness: on the concrete demo run, the matched pair's ids differ from
every id in the unmatched lists. -/
theorem claim_C1_no_double_assignment_witness :
    demoR2.transaction_id ≠ demoR1.transaction_id ∧
    demoB2.transaction_id ≠ demoB1.transaction_id := by
  have h := claim_C1_no_double_assignment demoTsr demoLedger demoBanks
  have hm : (⟨demoR1, demoB1, 92/100, "semantic"⟩ : MatchResult) ∈
      (reconcile_transactions demoTsr demoLedger demoBanks).«matches» := by
    rw [demo_eval]
    exact List.mem_singleton.mpr rfl
  have h3 := h.2.2 _ hm
  have hr : demoR2 ∈ (reconcile_transactions demoTsr demoLedger demoBanks).unmatched_ledger := by
    rw [demo_eval]
    simp
  have hb : demoB2 ∈ (reconcile_transactions demoTsr demoLedger demoBanks).unmatched_bank := by
    rw [demo_eval]
    simp
  exact ⟨h3.1 demoR2 hr, h3.2 demoB2 hb⟩

/-- C2.  Completeness partition: with unique ids inside each input
collection, matches plus unmatched receipts count the receipts, and matches
plus unmatched bank records count the bank records. -/
theorem claim_C2_completeness_partition (tsr : List Char → List Char → ℚ)
    (ledger : List ReceiptTxn) (banks : List BankTxn)
    (hndL : (ledger.map (fun r => r.transaction_id)).Nodup)
    (hndB : (banks.map (fun b => b.transaction_id)).Nodup) :
    (reconcile_transactions tsr ledger banks).«matches».length +
        (reconcile_transactions tsr ledger banks).unmatched_ledger.length = ledger.length ∧
    (reconcile_transactions tsr ledger banks).«matches».length +
        (reconcile_transactions tsr ledger banks).unmatched_bank.length = banks.length := by
  obtain ⟨F, hF⟩ : ∃ F, ledger.foldl (reconcileStep tsr banks) ⟨[], [], []⟩ = F := ⟨_, rfl⟩
  have hinv : LoopInv tsr banks F := hF ▸ inv_fold tsr banks ledger ⟨[], [], []⟩ (inv_init tsr banks)
  have hlenR : F.«matches».length = F.used_receipts.length := by
    rw [hinv.usedR_eq, List.length_map]
  have hlenB : F.«matches».length = F.used_bank.length := by
    rw [hinv.usedB_eq, List.length_map]
  have hsubR : ∀ x ∈ F.used_receipts, x ∈ ledger.map (fun r => r.transaction_id) := by
    rw [hinv.usedR_eq]
    intro x hx
    obtain ⟨m, hm, hx⟩ := List.mem_map.mp hx
    have hmem : m.receipt ∈ ledger := by
      rcases fold_matches_mem tsr banks ledger ⟨[], [], []⟩ m (by rw [hF]; exact hm) with h | h
      · simp at h
      · exact h
    exact hx ▸ List.mem_map_of_mem _ hmem
  have hsubB : ∀ x ∈ F.used_bank, x ∈ banks.map (fun b => b.transaction_id) := by
    rw [hinv.usedB_eq]
    intro x hx
    obtain ⟨m, hm, hx⟩ := List.mem_map.mp hx
    exact hx ▸ List.mem_map_of_mem _ (hinv.banks_mem m hm)
  have hcountR : (ledger.filter (fun r => decide (r.transaction_id ∈ F.used_receipts))).length
      = F.used_receipts.length := by
    have h1 : ((ledger.map (fun r => r.transaction_id)).filter
        (fun x => decide (x ∈ F.used_receipts))).length
        = (ledger.filter (fun r => decide (r.transaction_id ∈ F.used_receipts))).length := by
      rw [List.filter_map, List.length_map]
      rfl
    rw [← h1]
    exact length_filter_mem_eq _ _ hndL hinv.usedR_nodup hsubR
  have hcountB : (banks.filter (fun b => decide (b.transaction_id ∈ F.used_bank))).length
      = F.used_bank.length := by
    have h1 : ((banks.map (fun b => b.transaction_id)).filter
        (fun x => decide (x ∈ F.used_bank))).length
        = (banks.filter (fun b => decide (b.transaction_id ∈ F.used_bank))).length := by
      rw [List.filter_map, List.length_map]
      rfl
    rw [← h1]
    exact length_filter_mem_eq _ _ hndB hinv.usedB_nodup hsubB
  have hsplitR := List.length_eq_length_filter_add
    (l := ledger) (fun r => decide (r.transaction_id ∉ F.used_receipts))
  have hsplitB := List.length_eq_length_filter_add
    (l := banks) (fun b => decide (b.transaction_id ∉ F.used_bank))
  have hnegR : (ledger.filter
      (fun r => !(decide (r.transaction_id ∉ F.used_receipts)))).length
      = (ledger.filter (fun r => decide (r.transaction_id ∈ F.used_receipts))).length := by
    have hfun : (fun r : ReceiptTxn => !(decide (r.transaction_id ∉ F.used_receipts))) =
        (fun r : ReceiptTxn => decide (r.transaction_id ∈ F.used_receipts)) := by
      funext r
      simp [decide_not]
    rw [hfun]
  have hnegB : (banks.filter
      (fun b => !(decide (b.transaction_id ∉ F.used_bank)))).length
      = (banks.filter (fun b => decide (b.transaction_id ∈ F.used_bank))).length := by
    have hfun : (fun b : BankTxn => !(decide (b.transaction_id ∉ F.used_bank))) =
        (fun b : BankTxn => decide (b.transaction_id ∈ F.used_bank)) := by
      funext b
      simp [decide_not]
    rw [hfun]
  constructor
  · rw [reconcile_matches_def, reconcile_unmatchedL_def, hF]
    rw [hlenR, hsplitR, hnegR, hcountR]
    omega
  · rw [reconcile_matches_def, reconcile_unmatchedB_def, hF]
    rw [hlenB, hsplitB, hnegB, hcountB]
    omega

/-- C2 witness: the partition instantiated on the concrete demo run. -/
theorem claim_C2_completeness_partition_witness :
    (reconcile_transactions demoTsr demoLedger demoBanks).«matches».length +
        (reconcile_transactions demoTsr demoLedger demoBanks).unmatched_ledger.length =
      demoLedger.length ∧
    (reconcile_transactions demoTsr demoLedger demoBanks).«matches».length +
        (reconcile_transactions demoTsr demoLedger demoBanks).unmatched_bank.length =
      demoBanks.length :=
  claim_C2_completeness_partition demoTsr demoLedger demoBanks (by decide) (by decide)

/-- C4.  Zero-amount exclusion: a receipt with parsed amount `0` scores `0`
against every bank record, is never amount-compatible, lands in
`unmatched_ledger`, and never appears in a match (receipt ids unique). -/
theorem claim_C4_zero_amount_exclusion (tsr : List Char → List Char → ℚ)
    (ledger : List ReceiptTxn) (banks : List BankTxn) (r : ReceiptTxn)
    (hnd : (ledger.map (fun x => x.transaction_id)).Nodup) (hr : r ∈ ledger)
    (h0 : r.amount = some 0) :
    (∀ bank : BankTxn, calculate_similarity tsr r bank = 0) ∧
    (∀ q : ℚ, amounts_compatible 0 q = false) ∧
    r ∈ (reconcile_transactions tsr ledger banks).unmatched_ledger ∧
    ∀ m ∈ (reconcile_transactions tsr ledger banks).«matches», m.receipt ≠ r := by
  have hzero : ∀ bank : BankTxn, calculate_similarity tsr r bank = 0 := by
    intro bank
    cases hba : bank.amount with
    | none => simp [calculate_similarity, h0, hba]
    | some q => simp [calculate_similarity, h0, hba]
  have hmain := low_conf_unmatched tsr ledger banks r hnd hr
    (by intro b; rw [hzero b]; norm_num)
  exact ⟨hzero, fun q => by simp [amounts_compatible], hmain.1, hmain.2⟩

/-- C4 witness: the zero-amount demo receipt is excluded in the demo run. -/
theorem claim_C4_zero_amount_exclusion_witness :
    (∀ bank : BankTxn, calculate_similarity demoTsr demoR2 bank = 0) ∧
    (∀ q : ℚ, amounts_compatible 0 q = false) ∧
    demoR2 ∈ (reconcile_transactions demoTsr demoLedger demoBanks).unmatched_ledger ∧
    ∀ m ∈ (reconcile_transactions demoTsr demoLedger demoBanks).«matches»,
      m.receipt ≠ demoR2 :=
  claim_C4_zero_amount_exclusion demoTsr demoLedger demoBanks demoR2
    (by decide) (by simp [demoLedger]) rfl

/-- C8.  Local error recovery: an unparsable amount (the caught-exception
path of `_calculate_similarity`) forces the pair's score to `0`, and the
affected record still shows up in the corresponding unmatched list rather
than being discarded (given unique ids on its side). -/
theorem claim_C8_local_error_recovery :
    (∀ (tsr : List Char → List Char → ℚ) (receipt : ReceiptTxn) (bank : BankTxn),
      receipt.amount = none ∨ bank.amount = none →
        calculate_similarity tsr receipt bank = 0) ∧
    (∀ (tsr : List Char → List Char → ℚ) (ledger : List ReceiptTxn) (banks : List BankTxn)
        (r : ReceiptTxn),
      (ledger.map (fun x => x.transaction_id)).Nodup → r ∈ ledger → r.amount = none →
        r ∈ (reconcile_transactions tsr ledger banks).unmatched_ledger ∧
        ∀ m ∈ (reconcile_transactions tsr ledger banks).«matches», m.receipt ≠ r) ∧
    (∀ (tsr : List Char → List Char → ℚ) (ledger : List ReceiptTxn) (banks : List BankTxn)
        (b : BankTxn),
      (banks.map (fun x => x.transaction_id)).Nodup → b ∈ banks → b.amount = none →
        b ∈ (reconcile_transactions tsr ledger banks).unmatched_bank ∧
        ∀ m ∈ (reconcile_transactions tsr ledger banks).«matches», m.bank_transaction ≠ b) := by
  refine ⟨?_, ?_, ?_⟩
  · rintro tsr receipt bank (h | h)
    · cases hb : bank.amount <;> simp [calculate_similarity, h, hb]
    · cases ha : receipt.amount <;> simp [calculate_similarity, h, ha]
  · intro tsr ledger banks r hnd hr hnone
    exact low_conf_unmatched tsr ledger banks r hnd hr (by
      intro b
      have hz : calculate_similarity tsr r b = 0 := by
        cases hb : b.amount <;> simp [calculate_similarity, hnone, hb]
      rw [hz]
      norm_num)
  · intro tsr ledger banks b hnd hb hnone
    exact incompatible_bank_unmatched tsr ledger banks b hnd hb (by
      intro x
      cases x <;> simp [amountsCompatibleOpt, hnone])

/-- C8 witness: the demo records with unparsable amounts survive into the
unmatched lists of the demo run. -/
theorem claim_C8_local_error_recovery_witness :
    (demoR3 ∈ (reconcile_transactions demoTsr demoLedger demoBanks).unmatched_ledger ∧
      ∀ m ∈ (reconcile_transactions demoTsr demoLedger demoBanks).«matches»,
        m.receipt ≠ demoR3) ∧
    (demoB2 ∈ (reconcile_transactions demoTsr demoLedger demoBanks).unmatched_bank ∧
      ∀ m ∈ (reconcile_transactions demoTsr demoLedger demoBanks).«matches»,
        m.bank_transaction ≠ demoB2) :=
  ⟨claim_C8_local_error_recovery.2.1 demoTsr demoLedger demoBanks demoR3
      (by decide) (by simp [demoLedger]) rfl,
    claim_C8_local_error_recovery.2.2 demoTsr demoLedger demoBanks demoB2
      (by decide) (by simp [demoBanks]) rfl⟩

/-! ## Refinement of the inner loop to the spec-side selection -/

/-- The engine's inner fold and the spec-side fold over the filtered
candidate list stay in lock-step: both empty, or both holding the same
candidate and confidence (which then clears the threshold). -/
lemma bestFold_rel (tsr : List Char → List Char → ℚ) (used_bank : List String)
    (receipt : ReceiptTxn) :
    ∀ (banks : List BankTxn) (acc1 : Option BankTxn × ℚ) (acc2 : Option (BankTxn × ℚ)),
      ((acc1 = (none, 0) ∧ acc2 = none) ∨
        (∃ b c, acc1 = (some b, c) ∧ acc2 = some (b, c) ∧ c > 7/10)) →
      ((banks.foldl (bestStep tsr used_bank receipt) acc1 = (none, 0) ∧
          (spec_candidates tsr used_bank receipt banks).foldl
            (specSelectStep tsr receipt) acc2 = none) ∨
        (∃ b c, banks.foldl (bestStep tsr used_bank receipt) acc1 = (some b, c) ∧
          (spec_candidates tsr used_bank receipt banks).foldl
            (specSelectStep tsr receipt) acc2 = some (b, c) ∧
          c > 7/10)) := by
  intro banks
  induction banks with
  | nil =>
    intro acc1 acc2 h
    rcases h with ⟨h1, h2⟩ | ⟨b, c, h1, h2, hc⟩
    · exact Or.inl ⟨h1 ▸ rfl, by simp [spec_candidates, h2]⟩
    · exact Or.inr ⟨b, c, h1 ▸ rfl, by simp [spec_candidates, h2], hc⟩
  | cons b t ih =>
    intro acc1 acc2 h
    rw [List.foldl_cons]
    by_cases hmem : b.transaction_id ∈ used_bank
    · have h1 : bestStep tsr used_bank receipt acc1 b = acc1 := by
        simp [bestStep, hmem]
      have h2 : spec_candidates tsr used_bank receipt (b :: t) =
          spec_candidates tsr used_bank receipt t := by
        simp [spec_candidates, List.filter_cons, hmem]
      rw [h1, h2]
      exact ih acc1 acc2 h
    · by_cases hgate : calculate_similarity tsr receipt b > 7/10 ∧
          amountsCompatibleOpt receipt.amount b.amount = true
      · have h2 : spec_candidates tsr used_bank receipt (b :: t) =
            b :: spec_candidates tsr used_bank receipt t := by
          simp [spec_candidates, List.filter_cons, hmem, hgate.1, hgate.2]
        rw [h2, List.foldl_cons]
        rcases h with ⟨ha1, ha2⟩ | ⟨b0, c0, ha1, ha2, hc0⟩
        · subst ha1
          subst ha2
          have hpos : calculate_similarity tsr receipt b > (0:ℚ) :=
            lt_trans (by norm_num) hgate.1
          have h1 : bestStep tsr used_bank receipt (none, 0) b =
              (some b, calculate_similarity tsr receipt b) := by
            simp [bestStep, hmem, hgate, hpos]
          have h1' : specSelectStep tsr receipt none b =
              (some (b, calculate_similarity tsr receipt b)) := rfl
          rw [h1, h1']
          exact ih _ _ (Or.inr ⟨b, _, rfl, rfl, hgate.1⟩)
        · subst ha1
          subst ha2
          by_cases hlt : calculate_similarity tsr receipt b > c0
          · have h1 : bestStep tsr used_bank receipt (some b0, c0) b =
                (some b, calculate_similarity tsr receipt b) := by
              simp [bestStep, hmem, hgate, hlt]
            have h1' : specSelectStep tsr receipt (some (b0, c0)) b =
                some (b, calculate_similarity tsr receipt b) := by
              simp [specSelectStep, hlt]
            rw [h1, h1']
            exact ih _ _ (Or.inr ⟨b, _, rfl, rfl, hgate.1⟩)
          · have h1 : bestStep tsr used_bank receipt (some b0, c0) b = (some b0, c0) := by
              simp [bestStep, hmem, hgate, hlt]
            have h1' : specSelectStep tsr receipt (some (b0, c0)) b = some (b0, c0) := by
              simp [specSelectStep, hlt]
            rw [h1, h1']
            exact ih _ _ (Or.inr ⟨b0, c0, rfl, rfl, hc0⟩)
      · have h1 : bestStep tsr used_bank receipt acc1 b = acc1 := by
          simp only [bestStep, if_neg hmem, if_neg hgate]
        have hfalse : ¬ (b.transaction_id ∉ used_bank ∧
            (calculate_similarity tsr receipt b > 7/10 ∧
              amountsCompatibleOpt receipt.amount b.amount = true)) := by
          rintro ⟨-, hg⟩
          exact hgate hg
        have h2 : spec_candidates tsr used_bank receipt (b :: t) =
            spec_candidates tsr used_bank receipt t := by
          simp only [spec_candidates, List.filter_cons]
          rw [if_neg]
          simp only [Bool.and_eq_true, decide_eq_true_eq]
          exact fun hc => hfalse ⟨hc.1, hc.2.1, hc.2.2⟩
        rw [h1, h2]
        exact ih acc1 acc2 h

/-- The inner loop of `reconcile_transactions` computes exactly the
spec-side "filter by the acceptance gate, then pick the first maximum". -/
lemma findBestMatch_eq_spec (tsr : List Char → List Char → ℚ) (used_bank : List String)
    (receipt : ReceiptTxn) (banks : List BankTxn) :
    findBestMatch tsr used_bank receipt banks =
      match spec_select_best tsr receipt (spec_candidates tsr used_bank receipt banks) with
      | none => (none, 0)
      | some p => (some p.1, p.2) := by
  rcases bestFold_rel tsr used_bank receipt banks (none, 0) none (Or.inl ⟨rfl, rfl⟩) with
    ⟨h1, h2⟩ | ⟨b, c, h1, h2, _⟩
  · rw [findBestMatch, h1, spec_select_best.eq_def, h2]
  · rw [findBestMatch, h1, spec_select_best.eq_def, h2]

/-- Running the spec-side selection from a committed candidate yields the
first maximum: the result is the held candidate with everything below it,
or a strictly better later candidate preceded only by strictly smaller
confidences. -/
lemma specSelect_go (tsr : List Char → List Char → ℚ) (receipt : ReceiptTxn) :
    ∀ (l : List BankTxn) (b0 : BankTxn) (c0 : ℚ),
      c0 = calculate_similarity tsr receipt b0 →
      ∃ b c, l.foldl (specSelectStep tsr receipt) (some (b0, c0)) = some (b, c) ∧
        c = calculate_similarity tsr receipt b ∧
        ((b = b0 ∧ c = c0 ∧ ∀ x ∈ l, calculate_similarity tsr receipt x ≤ c) ∨
          (∃ l1 l2, l = l1 ++ b :: l2 ∧ c > c0 ∧
            (∀ x ∈ l1, calculate_similarity tsr receipt x < c) ∧
            (∀ x ∈ l2, calculate_similarity tsr receipt x ≤ c))) := by
  intro l
  induction l with
  | nil =>
    intro b0 c0 h0
    exact ⟨b0, c0, rfl, h0, Or.inl ⟨rfl, rfl, by simp⟩⟩
  | cons x t ih =>
    intro b0 c0 h0
    rw [List.foldl_cons]
    by_cases hx : calculate_similarity tsr receipt x > c0
    · have hstep : specSelectStep tsr receipt (some (b0, c0)) x =
          some (x, calculate_similarity tsr receipt x) := by
        simp [specSelectStep, hx]
      rw [hstep]
      obtain ⟨b, c, heq, hc, hcases⟩ := ih x (calculate_similarity tsr receipt x) rfl
      refine ⟨b, c, heq, hc, Or.inr ?_⟩
      rcases hcases with ⟨hb, hcv, hall⟩ | ⟨l1, l2, hsplit, hgt, hbefore, hafter⟩
      · subst hb
        exact ⟨[], t, by simp, hcv ▸ hx, by simp, fun y hy => hall y hy⟩
      · refine ⟨x :: l1, l2, by simp [hsplit], lt_trans hx hgt, ?_, hafter⟩
        intro y hy
        rcases List.mem_cons.mp hy with hy | hy
        · exact hy ▸ hgt
        · exact hbefore y hy
    · have hstep : specSelectStep tsr receipt (some (b0, c0)) x = some (b0, c0) := by
        simp [specSelectStep, hx]
      rw [hstep]
      obtain ⟨b, c, heq, hc, hcases⟩ := ih b0 c0 h0
      refine ⟨b, c, heq, hc, ?_⟩
      rcases hcases with ⟨hb, hcv, hall⟩ | ⟨l1, l2, hsplit, hgt, hbefore, hafter⟩
      · refine Or.inl ⟨hb, hcv, ?_⟩
        intro y hy
        rcases List.mem_cons.mp hy with hy | hy
        · subst hy
          exact hcv ▸ le_of_not_lt hx
        · exact hall y hy
      · refine Or.inr ⟨x :: l1, l2, by simp [hsplit], hgt, ?_, hafter⟩
        intro y hy
        rcases List.mem_cons.mp hy with hy | hy
        · subst hy
          exact lt_of_le_of_lt (le_of_not_lt hx) hgt
        · exact hbefore y hy

/-- Full characterisation of the spec-side selection: `none` exactly on an
empty candidate list, otherwise the first maximum-confidence candidate. -/
lemma spec_select_best_spec (tsr : List Char → List Char → ℚ) (receipt : ReceiptTxn)
    (cands : List BankTxn) :
    (spec_select_best tsr receipt cands = none ↔ cands = []) ∧
    ∀ b c, spec_select_best tsr receipt cands = some (b, c) →
      c = calculate_similarity tsr receipt b ∧
      ∃ l1 l2, cands = l1 ++ b :: l2 ∧
        (∀ x ∈ l1, calculate_similarity tsr receipt x < c) ∧
        (∀ x ∈ cands, calculate_similarity tsr receipt x ≤ c) := by
  cases cands with
  | nil =>
    exact ⟨by simp [spec_select_best], fun b c h => by simp [spec_select_best] at h⟩
  | cons x t =>
    have hstep : spec_select_best tsr receipt (x :: t) =
        t.foldl (specSelectStep tsr receipt) (some (x, calculate_similarity tsr receipt x)) := by
      rw [spec_select_best, List.foldl_cons]
      rfl
    obtain ⟨b, c, heq, hc, hcases⟩ := specSelect_go tsr receipt t x
      (calculate_similarity tsr receipt x) rfl
    constructor
    · rw [hstep, heq]
      simp
    · intro b' c' h
      rw [hstep, heq] at h
      have h2 : b = b' ∧ c = c' := by
        simpa using h
      obtain ⟨hb, hcc⟩ := h2
      subst hb
      subst hcc
      refine ⟨hc, ?_⟩
      rcases hcases with ⟨hbx, hcv, hall⟩ | ⟨l1, l2, hsplit, hgt, hbefore, hafter⟩
      · subst hbx
        refine ⟨[], t, by simp, by simp, ?_⟩
        intro y hy
        rcases List.mem_cons.mp hy with hy | hy
        · exact hy ▸ hc.ge
        · exact hall y hy
      · refine ⟨x :: l1, l2, by simp [hsplit], ?_, ?_⟩
        · intro y hy
          rcases List.mem_cons.mp hy with hy | hy
          · subst hy
            exact hgt
          · exact hbefore y hy
        · intro y hy
          rcases List.mem_cons.mp hy with hy | hy
          · subst hy
            exact le_of_lt hgt
          · rw [hsplit] at hy
            rcases List.mem_append.mp hy with hy | hy
            · exact le_of_lt (hbefore y hy)
            · rcases List.mem_cons.mp hy with hy | hy
              · exact hy ▸ hc.ge
              · exact hafter y hy

/-- C3.  Greedy selection rule: the inner loop retains exactly the
unconsumed, gate-passing candidates; it equals the spec-side
filter-then-pick-first-maximum; the spec-side pick returns the
maximum-confidence candidate with ties broken by the earliest bank record;
and of two receipts competing for one bank record the first-processed
receipt claims it while the later one faces the leftover (empty) pool. -/
theorem claim_C3_greedy_selection :
    (∀ (tsr : List Char → List Char → ℚ) (used_bank : List String) (receipt : ReceiptTxn)
        (banks : List BankTxn) (b : BankTxn),
      b ∈ spec_candidates tsr used_bank receipt banks ↔
        (b ∈ banks ∧ b.transaction_id ∉ used_bank ∧
          calculate_similarity tsr receipt b > 7/10 ∧
          amountsCompatibleOpt receipt.amount b.amount = true)) ∧
    (∀ (tsr : List Char → List Char → ℚ) (used_bank : List String) (receipt : ReceiptTxn)
        (banks : List BankTxn),
      findBestMatch tsr used_bank receipt banks =
        match spec_select_best tsr receipt (spec_candidates tsr used_bank receipt banks) with
        | none => (none, 0)
        | some p => (some p.1, p.2)) ∧
    (∀ (tsr : List Char → List Char → ℚ) (receipt : ReceiptTxn) (cands : List BankTxn),
      (spec_select_best tsr receipt cands = none ↔ cands = []) ∧
      ∀ b c, spec_select_best tsr receipt cands = some (b, c) →
        c = calculate_similarity tsr receipt b ∧
        ∃ l1 l2, cands = l1 ++ b :: l2 ∧
          (∀ x ∈ l1, calculate_similarity tsr receipt x < c) ∧
          (∀ x ∈ cands, calculate_similarity tsr receipt x ≤ c)) ∧
    (∀ (tsr : List Char → List Char → ℚ) (r1 r2 : ReceiptTxn) (b : BankTxn),
      r1.transaction_id ≠ r2.transaction_id →
      calculate_similarity tsr r1 b > 7/10 →
      amountsCompatibleOpt r1.amount b.amount = true →
      calculate_similarity tsr r2 b > 7/10 →
      amountsCompatibleOpt r2.amount b.amount = true →
      reconcile_transactions tsr [r1, r2] [b] =
        ⟨[⟨r1, b, calculate_similarity tsr r1 b, "semantic"⟩], [r2], []⟩) := by
  refine ⟨?_, findBestMatch_eq_spec, spec_select_best_spec, ?_⟩
  · intro tsr used_bank receipt banks b
    simp [spec_candidates, List.mem_filter, and_assoc]
  · intro tsr r1 r2 b hne h1 h2 h3 h4
    have hpos : calculate_similarity tsr r1 b > (0:ℚ) := lt_trans (by norm_num) h1
    have hne' : r2.transaction_id ≠ r1.transaction_id := hne.symm
    simp [reconcile_transactions, reconcileStep, findBestMatch, bestStep,
      h1, h2, h3, h4, hpos, hne, hne']

/-- C3 witness: the refinement, the tie-break characterisation and the
competition rule exercised on concrete data. -/
theorem claim_C3_greedy_selection_witness :
    reconcile_transactions demoTsr
        [demoR1, ⟨"r9", "WALMART".toList, some 50, ""⟩] [demoB1] =
      ⟨[⟨demoR1, demoB1, calculate_similarity demoTsr demoR1 demoB1, "semantic"⟩],
        [⟨"r9", "WALMART".toList, some 50, ""⟩], []⟩ := by
  have hv : vendor_score demoTsr demoR1 demoB1 = 9/10 := by rfl
  have hc : calculate_similarity demoTsr demoR1 demoB1 = 92/100 := by
    norm_num [calculate_similarity, show demoR1.amount = some 50 from rfl,
      show demoB1.amount = some (-50) from rfl, hv, date_score]
  have hv9 : vendor_score demoTsr (⟨"r9", "WALMART".toList, some 50, ""⟩ : ReceiptTxn) demoB1 =
      9/10 := by rfl
  have hv9L : vendor_score demoTsr
      (⟨"r9", ['W', 'A', 'L', 'M', 'A', 'R', 'T'], some 50, ""⟩ : ReceiptTxn) demoB1 =
      9/10 := hv9
  have hc9 : calculate_similarity demoTsr (⟨"r9", "WALMART".toList, some 50, ""⟩ : ReceiptTxn)
      demoB1 = 92/100 := by
    norm_num [calculate_similarity, show demoB1.amount = some (-50) from rfl, hv9, hv9L,
      date_score]
  have ha : amountsCompatibleOpt demoR1.amount demoB1.amount = true := by
    norm_num [amountsCompatibleOpt, show demoR1.amount = some 50 from rfl,
      show demoB1.amount = some (-50) from rfl, amounts_compatible, amount_tolerance_percent]
  have ha9 : amountsCompatibleOpt (⟨"r9", "WALMART".toList, some 50, ""⟩ : ReceiptTxn).amount
      demoB1.amount = true := ha
  exact claim_C3_greedy_selection.2.2.2 demoTsr demoR1
    (⟨"r9", "WALMART".toList, some 50, ""⟩ : ReceiptTxn) demoB1
    (by decide) (by rw [hc]; norm_num) ha (by rw [hc9]; norm_num) ha9

/-! ## Lemmas for the vector similarity matcher -/

/-- The argmax helper either keeps the incumbent (everything remaining is
at most the incumbent value) or lands on a remaining element that strictly
beats the incumbent, strictly beats everything before it, and is at least
everything after it. -/
lemma argmaxAux_cases :
    ∀ (l : List ℚ) (i bi : ℕ) (bv : ℚ),
      (argmaxAux l i bi bv = bi ∧ ∀ x ∈ l, x ≤ bv) ∨
      (∃ j, j < l.length ∧ argmaxAux l i bi bv = i + j ∧ bv < l.getD j 0 ∧
        (∀ k < j, l.getD k 0 < l.getD j 0) ∧
        (∀ k, j < k → k < l.length → l.getD k 0 ≤ l.getD j 0)) := by
  intro l
  induction l with
  | nil =>
    intro i bi bv
    exact Or.inl ⟨rfl, by simp⟩
  | cons x t ih =>
    intro i bi bv
    by_cases hx : x > bv
    · have hstep : argmaxAux (x :: t) i bi bv = argmaxAux t (i+1) i x := by
        simp [argmaxAux, hx]
      rcases ih (i+1) i x with ⟨heq, hall⟩ | ⟨j, hj, heq, hlt, hbefore, hafter⟩
      · refine Or.inr ⟨0, by simp, by simp [hstep, heq], by simpa using hx, by simp, ?_⟩
        intro k hk0 hklen
        cases k with
        | zero => omega
        | succ k' =>
          rw [List.getD_cons_succ, List.getD_cons_zero]
          have hk' : k' < t.length := by simpa using hklen
          rw [List.getD_eq_getElem t 0 hk']
          exact hall _ (List.getElem_mem hk')
      · refine Or.inr ⟨j + 1, by simpa using hj, ?_, ?_, ?_, ?_⟩
        · rw [hstep, heq]
          omega
        · rw [List.getD_cons_succ]
          exact lt_trans hx hlt
        · intro k hk
          cases k with
          | zero =>
            rw [List.getD_cons_zero, List.getD_cons_succ]
            exact hlt
          | succ k' =>
            rw [List.getD_cons_succ, List.getD_cons_succ]
            exact hbefore k' (by omega)
        · intro k hk1 hk2
          cases k with
          | zero => omega
          | succ k' =>
            rw [List.getD_cons_succ, List.getD_cons_succ]
            exact hafter k' (by omega) (by simpa using hk2)
    · have hstep : argmaxAux (x :: t) i bi bv = argmaxAux t (i+1) bi bv := by
        simp [argmaxAux, hx]
      rcases ih (i+1) bi bv with ⟨heq, hall⟩ | ⟨j, hj, heq, hlt, hbefore, hafter⟩
      · refine Or.inl ⟨by rw [hstep, heq], ?_⟩
        intro y hy
        rcases List.mem_cons.mp hy with hy | hy
        · exact hy ▸ le_of_not_lt hx
        · exact hall y hy
      · refine Or.inr ⟨j + 1, by simpa using hj, ?_, ?_, ?_, ?_⟩
        · rw [hstep, heq]
          omega
        · rw [List.getD_cons_succ]
          exact hlt
        · intro k hk
          cases k with
          | zero =>
            rw [List.getD_cons_zero, List.getD_cons_succ]
            exact lt_of_le_of_lt (le_of_not_lt hx) hlt
          | succ k' =>
            rw [List.getD_cons_succ, List.getD_cons_succ]
            exact hbefore k' (by omega)
        · intro k hk1 hk2
          cases k with
          | zero => omega
          | succ k' =>
            rw [List.getD_cons_succ, List.getD_cons_succ]
            exact hafter k' (by omega) (by simpa using hk2)

/-- Specification of `npArgmax` on a nonempty row: a valid index of a row
maximum, and the first such index. -/
lemma npArgmax_spec (row : List ℚ) (h : row ≠ []) :
    npArgmax row < row.length ∧
    (∀ j < row.length, row.getD j 0 ≤ row.getD (npArgmax row) 0) ∧
    (∀ j < npArgmax row, row.getD j 0 < row.getD (npArgmax row) 0) := by
  cases row with
  | nil => exact absurd rfl h
  | cons x t =>
    have hnp : npArgmax (x :: t) = argmaxAux t 1 0 x := rfl
    rcases argmaxAux_cases t 1 0 x with ⟨heq, hall⟩ | ⟨j, hj, heq, hlt, hbefore, hafter⟩
    · rw [hnp, heq]
      refine ⟨by simp, ?_, by omega⟩
      intro k hk
      cases k with
      | zero => simp
      | succ k' =>
        rw [List.getD_cons_succ, List.getD_cons_zero]
        have hk' : k' < t.length := by simpa using hk
        rw [List.getD_eq_getElem t 0 hk']
        exact hall _ (List.getElem_mem hk')
    · have heq' : npArgmax (x :: t) = j + 1 := by
        rw [hnp, heq]
        omega
      rw [heq']
      refine ⟨by simpa using hj, ?_, ?_⟩
      · intro k hk
        rw [List.getD_cons_succ]
        cases k with
        | zero =>
          rw [List.getD_cons_zero]
          exact le_of_lt hlt
        | succ k' =>
          rw [List.getD_cons_succ]
          have hk' : k' < t.length := by simpa using hk
          rcases lt_trichotomy k' j with hkj | hkj | hkj
          · exact le_of_lt (hbefore k' hkj)
          · exact hkj ▸ le_refl _
          · exact hafter k' hkj hk'
      · intro k hk
        rw [List.getD_cons_succ]
        cases k with
        | zero =>
          rw [List.getD_cons_zero]
          exact hlt
        | succ k' =>
          rw [List.getD_cons_succ]
          exact hbefore k' (by omega)

/-- The enumerated loop of `find_matches` as a `filterMap` over row
indices: row `i + k` serves the `k`-th remaining receipt. -/
lemma findMatchesLoop_eq (sim : ℕ → ℕ → ℚ) (banks : List BankTxn) :
    ∀ (l : List ReceiptTxn) (i : ℕ),
      findMatchesLoop sim banks l i =
        (List.range l.length).filterMap (fun k =>
          if (simRow sim (i + k) banks.length).getD
              (npArgmax (simRow sim (i + k) banks.length)) 0 > 7/10 then
            some ⟨l.getD k default,
              banks.getD (npArgmax (simRow sim (i + k) banks.length)) default,
              (simRow sim (i + k) banks.length).getD
                (npArgmax (simRow sim (i + k) banks.length)) 0, "semantic"⟩
          else none) := by
  intro l
  induction l with
  | nil =>
    intro i
    simp [findMatchesLoop]
  | cons r t ih =>
    intro i
    have hlen : (r :: t).length = t.length + 1 := rfl
    rw [hlen, List.range_succ_eq_map, List.filterMap_cons, List.filterMap_map]
    have htail : (fun k => if (simRow sim (i + k) banks.length).getD
          (npArgmax (simRow sim (i + k) banks.length)) 0 > 7/10 then
          some (⟨(r :: t).getD k default,
            banks.getD (npArgmax (simRow sim (i + k) banks.length)) default,
            (simRow sim (i + k) banks.length).getD
              (npArgmax (simRow sim (i + k) banks.length)) 0, "semantic"⟩ : MatchResult)
          else none) ∘ Nat.succ =
        (fun k => if (simRow sim (i + 1 + k) banks.length).getD
            (npArgmax (simRow sim (i + 1 + k) banks.length)) 0 > 7/10 then
          some (⟨t.getD k default,
            banks.getD (npArgmax (simRow sim (i + 1 + k) banks.length)) default,
            (simRow sim (i + 1 + k) banks.length).getD
              (npArgmax (simRow sim (i + 1 + k) banks.length)) 0, "semantic"⟩ : MatchResult)
          else none) := by
      funext k
      have hidx : i + Nat.succ k = i + 1 + k := by omega
      simp only [Function.comp, hidx, List.getD_cons_succ]
    rw [htail, ← ih (i + 1)]
    simp only [findMatchesLoop, Nat.add_zero, List.getD_cons_zero]
    by_cases hc : (simRow sim i banks.length).getD
        (npArgmax (simRow sim i banks.length)) 0 > 7/10
    · rw [if_pos hc, if_pos hc]
      rfl
    · rw [if_neg hc, if_neg hc]
      rfl

/-- C9.  Vector matcher selection: empty input on either side yields no
matches; otherwise each receipt row contributes at most one `"semantic"`
candidate, paired with the bank column of (first) maximum similarity and
emitted exactly when that maximum strictly exceeds `0.7`. -/
theorem claim_C9_vector_matcher_selection :
    (∀ (sim : ℕ → ℕ → ℚ) (receipts : List ReceiptTxn) (banks : List BankTxn),
      receipts = [] ∨ banks = [] → find_matches sim receipts banks = []) ∧
    (∀ (sim : ℕ → ℕ → ℚ) (receipts : List ReceiptTxn) (banks : List BankTxn),
      banks ≠ [] →
      find_matches sim receipts banks =
        (List.range receipts.length).filterMap (fun k =>
          if (simRow sim k banks.length).getD
              (npArgmax (simRow sim k banks.length)) 0 > 7/10 then
            some ⟨receipts.getD k default,
              banks.getD (npArgmax (simRow sim k banks.length)) default,
              (simRow sim k banks.length).getD
                (npArgmax (simRow sim k banks.length)) 0, "semantic"⟩
          else none)) ∧
    (∀ row : List ℚ, row ≠ [] →
      npArgmax row < row.length ∧
      (∀ j < row.length, row.getD j 0 ≤ row.getD (npArgmax row) 0) ∧
      (∀ j < npArgmax row, row.getD j 0 < row.getD (npArgmax row) 0)) ∧
    (∀ (sim : ℕ → ℕ → ℚ) (receipts : List ReceiptTxn) (banks : List BankTxn),
      (find_matches sim receipts banks).length ≤ receipts.length) := by
  refine ⟨?_, ?_, npArgmax_spec, ?_⟩
  · rintro sim receipts banks (h | h) <;> simp [find_matches, h]
  · intro sim receipts banks hb
    cases receipts with
    | nil => simp [find_matches]
    | cons r t =>
      have h1 : find_matches sim (r :: t) banks = findMatchesLoop sim banks (r :: t) 0 := by
        simp [find_matches, List.isEmpty_iff, hb]
      rw [h1, findMatchesLoop_eq]
      simp
  · intro sim receipts banks
    by_cases hb : banks = []
    · simp [find_matches, hb]
    · cases receipts with
      | nil => simp [find_matches]
      | cons r t =>
        have h1 : find_matches sim (r :: t) banks = findMatchesLoop sim banks (r :: t) 0 := by
          simp [find_matches, List.isEmpty_iff, hb]
        rw [h1, findMatchesLoop_eq]
        calc ((List.range (r :: t).length).filterMap _).length
            ≤ (List.range (r :: t).length).length := List.length_filterMap_le _ _
          _ = (r :: t).length := List.length_range _

/-- C9 witness: the empty-input edge case and the argmax specification on a
concrete row. -/
theorem claim_C9_vector_matcher_selection_witness :
    find_matches (fun _ _ => 0) [] [demoB1] = [] ∧
    (npArgmax [(1 : ℚ)/2, 3/4] < 2 ∧
      (∀ j < ([(1 : ℚ)/2, 3/4]).length,
        ([(1 : ℚ)/2, 3/4]).getD j 0 ≤ ([(1 : ℚ)/2, 3/4]).getD (npArgmax [(1 : ℚ)/2, 3/4]) 0) ∧
      (∀ j < npArgmax [(1 : ℚ)/2, 3/4],
        ([(1 : ℚ)/2, 3/4]).getD j 0 < ([(1 : ℚ)/2, 3/4]).getD (npArgmax [(1 : ℚ)/2, 3/4]) 0)) :=
  ⟨claim_C9_vector_matcher_selection.1 (fun _ _ => 0) [] [demoB1] (Or.inl rfl),
    claim_C9_vector_matcher_selection.2.2.1 [(1 : ℚ)/2, 3/4] (by simp)⟩

/-! ## Date-insensitivity lemmas -/

/-- Erasing the date keeps the receipt id. -/
lemma eraseReceiptDate_id (r : ReceiptTxn) :
    (eraseReceiptDate r).transaction_id = r.transaction_id := rfl

/-- Erasing the date keeps the receipt amount. -/
lemma eraseReceiptDate_amount (r : ReceiptTxn) :
    (eraseReceiptDate r).amount = r.amount := rfl

/-- Erasing the date keeps the bank id. -/
lemma eraseBankDate_id (b : BankTxn) :
    (eraseBankDate b).transaction_id = b.transaction_id := rfl

/-- Erasing the date keeps the bank amount. -/
lemma eraseBankDate_amount (b : BankTxn) :
    (eraseBankDate b).amount = b.amount := rfl

/-- The similarity score never reads the `transaction_date` fields: the date
component is the constant `date_score`. -/
lemma calc_erase (tsr : List Char → List Char → ℚ) (r : ReceiptTxn) (b : BankTxn) :
    calculate_similarity tsr (eraseReceiptDate r) (eraseBankDate b) =
      calculate_similarity tsr r b := rfl

/-- One inner-loop step commutes with date erasure. -/
lemma bestStep_erase (tsr : List Char → List Char → ℚ) (used_bank : List String)
    (r : ReceiptTxn) (acc : Option BankTxn × ℚ) (b : BankTxn) :
    bestStep tsr used_bank (eraseReceiptDate r)
        (Option.map eraseBankDate acc.1, acc.2) (eraseBankDate b) =
      ((bestStep tsr used_bank r acc b).1.map eraseBankDate,
        (bestStep tsr used_bank r acc b).2) := by
  simp only [bestStep, eraseBankDate_id, eraseReceiptDate_amount, eraseBankDate_amount,
    calc_erase]
  split_ifs <;> rfl

/-- The inner loop commutes with date erasure. -/
lemma bestFold_erase (tsr : List Char → List Char → ℚ) (used_bank : List String)
    (r : ReceiptTxn) :
    ∀ (banks : List BankTxn) (acc : Option BankTxn × ℚ),
      (banks.map eraseBankDate).foldl (bestStep tsr used_bank (eraseReceiptDate r))
          (Option.map eraseBankDate acc.1, acc.2) =
        ((banks.foldl (bestStep tsr used_bank r) acc).1.map eraseBankDate,
          (banks.foldl (bestStep tsr used_bank r) acc).2) := by
  intro banks
  induction banks with
  | nil => intro acc; rfl
  | cons b t ih =>
    intro acc
    rw [List.map_cons, List.foldl_cons, List.foldl_cons, bestStep_erase]
    exact ih (bestStep tsr used_bank r acc b)

/-- `findBestMatch` commutes with date erasure. -/
lemma findBestMatch_erase (tsr : List Char → List Char → ℚ) (used_bank : List String)
    (r : ReceiptTxn) (banks : List BankTxn) :
    findBestMatch tsr used_bank (eraseReceiptDate r) (banks.map eraseBankDate) =
      ((findBestMatch tsr used_bank r banks).1.map eraseBankDate,
        (findBestMatch tsr used_bank r banks).2) :=
  bestFold_erase tsr used_bank r banks (none, 0)

/-- One outer-loop step commutes with date erasure. -/
lemma reconcileStep_erase (tsr : List Char → List Char → ℚ) (banks : List BankTxn)
    (st : EngineState) (r : ReceiptTxn) :
    reconcileStep tsr (banks.map eraseBankDate) (eraseStateDates st) (eraseReceiptDate r) =
      eraseStateDates (reconcileStep tsr banks st r) := by
  by_cases hmem : r.transaction_id ∈ st.used_receipts
  · simp [reconcileStep, eraseStateDates, eraseReceiptDate_id, hmem]
  · cases hfb : findBestMatch tsr st.used_bank r banks with
    | mk ob c =>
      have hfb' : findBestMatch tsr st.used_bank (eraseReceiptDate r)
          (banks.map eraseBankDate) = (ob.map eraseBankDate, c) := by
        have h := findBestMatch_erase tsr st.used_bank r banks
        rw [hfb] at h
        exact h
      cases ob with
      | none =>
        simp [reconcileStep, eraseStateDates, eraseReceiptDate_id, hmem, hfb, hfb']
      | some b =>
        simp [reconcileStep, eraseStateDates, eraseReceiptDate_id, hmem, hfb, hfb',
          eraseMatchDates, eraseBankDate_id]

/-- The whole outer loop commutes with date erasure. -/
lemma reconcileFold_erase (tsr : List Char → List Char → ℚ) (banks : List BankTxn) :
    ∀ (ledger : List ReceiptTxn) (st : EngineState),
      (ledger.map eraseReceiptDate).foldl
          (reconcileStep tsr (banks.map eraseBankDate)) (eraseStateDates st) =
        eraseStateDates (ledger.foldl (reconcileStep tsr banks) st) := by
  intro ledger
  induction ledger with
  | nil => intro st; rfl
  | cons r t ih =>
    intro st
    rw [List.map_cons, List.foldl_cons, List.foldl_cons, reconcileStep_erase]
    exact ih (reconcileStep tsr banks st r)

/-- `reconcile_transactions` commutes with date erasure of inputs and
output. -/
lemma reconcile_erase (tsr : List Char → List Char → ℚ)
    (ledger : List ReceiptTxn) (banks : List BankTxn) :
    reconcile_transactions tsr (ledger.map eraseReceiptDate) (banks.map eraseBankDate) =
      eraseOutcomeDates (reconcile_transactions tsr ledger banks) := by
  have hfold : (ledger.map eraseReceiptDate).foldl
      (reconcileStep tsr (banks.map eraseBankDate)) ⟨[], [], []⟩ =
      eraseStateDates (ledger.foldl (reconcileStep tsr banks) ⟨[], [], []⟩) :=
    reconcileFold_erase tsr banks ledger ⟨[], [], []⟩
  simp only [reconcile_transactions, eraseOutcomeDates, hfold,
    ReconcileOutcome.mk.injEq]
  refine ⟨rfl, ?_, ?_⟩
  · rw [List.filter_map]
    rfl
  · rw [List.filter_map]
    rfl

/-- C10.  Date insensitivity: the date component of the composite score is
the constant `0.8`, the score ignores `transaction_date` entirely, and two
runs whose inputs differ only in `transaction_date` fields produce the same
matches, confidences, match types and unmatched lists (up to those very
date fields). -/
theorem claim_C10_date_insensitivity :
    date_score = 8/10 ∧
    (∀ (tsr : List Char → List Char → ℚ) (receipt : ReceiptTxn) (bank : BankTxn),
      calculate_similarity tsr (eraseReceiptDate receipt) (eraseBankDate bank) =
        calculate_similarity tsr receipt bank) ∧
    (∀ (tsr : List Char → List Char → ℚ) (l1 l2 : List ReceiptTxn) (b1 b2 : List BankTxn),
      l1.map eraseReceiptDate = l2.map eraseReceiptDate →
      b1.map eraseBankDate = b2.map eraseBankDate →
      eraseOutcomeDates (reconcile_transactions tsr l1 b1) =
        eraseOutcomeDates (reconcile_transactions tsr l2 b2)) := by
  refine ⟨rfl, calc_erase, fun tsr l1 l2 b1 b2 hl hb => ?_⟩
  rw [← reconcile_erase, ← reconcile_erase, hl, hb]

/-- C10 witness: shifting every date in the demo run leaves the
date-erased outcome unchanged. -/
theorem claim_C10_date_insensitivity_witness :
    eraseOutcomeDates (reconcile_transactions demoTsr [demoR1] [demoB1]) =
      eraseOutcomeDates (reconcile_transactions demoTsr
        [⟨"r1", "WALMART".toList, some 50, "1999-12-31"⟩]
        [⟨"b1", "WALMART STORE 1234".toList, some (-50), "2000-01-01"⟩]) :=
  claim_C10_date_insensitivity.2.2 demoTsr [demoR1]
    [⟨"r1", "WALMART".toList, some 50, "1999-12-31"⟩]
    [demoB1] [⟨"b1", "WALMART STORE 1234".toList, some (-50), "2000-01-01"⟩]
    rfl rfl

/-- C5 witness: the compatibility characterisation instantiated on a
concrete amount pair. -/
theorem claim_C5_amounts_compatible_witness :
    amounts_compatible 50 (-52) = true ↔
      ((50 : ℚ) ≠ 0 ∧ abs (abs (50 : ℚ) - abs (-52 : ℚ)) ≤
        max (abs (50 : ℚ) * amount_tolerance_percent) 1) :=
  claim_C5_amounts_compatible.2.2 50 (-52)
